import Mathlib

/-!
Shallow embedding of the `ResearchMemory` core of the OpenAI-DeepResearch-aget
repository (`src/core/memory.py`), together with theorems settling the spec
claims about it.

Modelling conventions:
* Python floats (`response_time`, timestamps, averages, confidences) are
  modelled as `ℚ`; Python ints as `ℕ`.
* The current wall-clock time (`time.time()` / `datetime.now()`) is passed
  explicitly as a `now : ℚ` argument to each operation that reads the clock.
* Python dicts are insertion-ordered; they are modelled as association lists
  in which an update of an existing key replaces the value in place and an
  update of a fresh key appends at the end, matching dict iteration order.
* `hashlib.md5(query).hexdigest()` is an external library function, modelled
  as an abstract parameter `md5 : String → String`.
* The durable file store (`workspace/memory/cache/<hash>.json`) is modelled
  as an association list `diskCache` keyed by the fingerprint.
* Console `print` calls are pure output and are not modelled; the periodic
  JSON flush writes the same in-memory data and has no observable effect on
  the modelled state.
-/

namespace DeepResearch

/-- One record of the append-only pattern log (the `pattern` dict built by
`remember_query`). The source stores the timestamp as an ISO string of the
current time; it is modelled as the numeric current time. -/
structure PatternRecord where
  query : String
  query_type : String
  method : String
  success : Bool
  response_time : ℚ
  citations_count : ℕ
  timestamp : ℚ
deriving DecidableEq

/-- One cache entry (`cached_data` in `cache_result`). -/
structure CacheEntry (α : Type) where
  query : String
  result : α
  timestamp : ℚ
  hits : ℕ
deriving DecidableEq

/-- The statistics aggregate (`self.stats`). -/
structure Stats where
  total_queries : ℕ
  cache_hits : ℕ
  patterns_learned : ℕ
  avg_response_time : ℚ
deriving DecidableEq

/-- The fresh statistics returned by `_load_stats` when no file exists. -/
def Stats.fresh : Stats :=
  { total_queries := 0, cache_hits := 0, patterns_learned := 0, avg_response_time := 0 }

/-- State of a `ResearchMemory` instance: the pattern log, the in-memory
cache dict, the durable cache directory, and the statistics aggregate. -/
structure ResearchMemory (α : Type) where
  patterns : List PatternRecord
  cache : List (String × CacheEntry α)
  diskCache : List (String × CacheEntry α)
  stats : Stats
deriving DecidableEq

/-- A fresh instance (no patterns file, no stats file, empty cache dir). -/
def ResearchMemory.fresh (α : Type) : ResearchMemory α :=
  { patterns := [], cache := [], diskCache := [], stats := Stats.fresh }

/-- Association-list lookup (`dict.__getitem__` / `in` test). -/
def lookupA {β : Type} (l : List (String × β)) (k : String) : Option β :=
  (l.find? (fun e => e.1 = k)).map (fun e => e.2)

/-- Association-list update (`dict[k] = v`): replace in place if the key is
present, else append — matching Python dict insertion order. -/
def updateA {β : Type} (l : List (String × β)) (k : String) (v : β) :
    List (String × β) :=
  if l.any (fun e => e.1 = k) then
    l.map (fun e => if e.1 = k then (k, v) else e)
  else
    l ++ [(k, v)]

/-- `pat` occurs as a contiguous sublist of the second argument. -/
def listContains (pat : List Char) : List Char → Bool
  | [] => pat.isEmpty
  | c :: cs => pat.isPrefixOf (c :: cs) || listContains pat cs

/-- Python's `pat in s` substring test. -/
def strContains (s pat : String) : Bool :=
  listContains pat.toList s.toList

/-- Python's `str.lower()`.  All classifier keywords are ASCII, for which
`Char.toLower` agrees with Python's lowering. -/
def strLower (s : String) : String :=
  ⟨s.data.map Char.toLower⟩

/-- `ResearchMemory._classify_query`: keyword classification of a query. -/
def classify_query (query : String) : String :=
  let query_lower := strLower query
  if ["landscape", "comprehensive", "analyze", "comparison"].any
      (fun word => strContains query_lower word) then
    "comprehensive_analysis"
  else if ["how to", "implement", "code", "example"].any
      (fun word => strContains query_lower word) then
    "technical_implementation"
  else if ["what is", "define", "explain"].any
      (fun word => strContains query_lower word) then
    "conceptual_explanation"
  else if ["best", "recommend", "should"].any
      (fun word => strContains query_lower word) then
    "recommendation"
  else
    "general_research"

/-- `ResearchMemory._learn_from_pattern`, acting on the already-appended log:
count successful records with the given `(query_type, method)` and bump
`patterns_learned` when there are at least 3. -/
def learn_from_pattern (patterns : List PatternRecord) (stats : Stats)
    (query_type method : String) : Stats :=
  let similar_patterns := patterns.filter
    (fun p => p.query_type = query_type ∧ p.method = method ∧ p.success = true)
  if 3 ≤ similar_patterns.length then
    { stats with patterns_learned := stats.patterns_learned + 1 }
  else
    stats

/-- `ResearchMemory.remember_query`: append one pattern record, update the
statistics, and (on success) invoke the learner.  The periodic flush writes
the same state durably and is not part of the modelled state. -/
def remember_query {α : Type} (m : ResearchMemory α) (query method : String)
    (success : Bool) (response_time : ℚ) (citations_count : ℕ) (now : ℚ) :
    ResearchMemory α :=
  let pattern : PatternRecord :=
    { query := query, query_type := classify_query query, method := method,
      success := success, response_time := response_time,
      citations_count := citations_count, timestamp := now }
  let patterns := m.patterns ++ [pattern]
  let total := m.stats.total_queries + 1
  let avg :=
    if m.stats.avg_response_time = 0 then response_time
    else (m.stats.avg_response_time * ((total : ℚ) - 1) + response_time) / (total : ℚ)
  let stats := { m.stats with total_queries := total, avg_response_time := avg }
  let stats :=
    if success then learn_from_pattern patterns stats pattern.query_type pattern.method
    else stats
  { m with patterns := patterns, stats := stats }

/-- Python-dict key order: first occurrence of each value, in list order. -/
def dedupKeepFirst (l : List String) : List String :=
  l.foldl (fun acc x => if x ∈ acc then acc else acc ++ [x]) []

/-- Number of records in `similar_patterns` using `method`
(`method_scores[method]["count"]` in the source). -/
def methodCount (similar_patterns : List PatternRecord) (method : String) : ℕ :=
  (similar_patterns.filter (fun p => p.method = method)).length

/-- Python's `max(iterable, key=f)`: first element attaining the maximum,
replacing the running best only on strict improvement. -/
def argmaxFirst (f : String → ℕ) : List String → Option String
  | [] => none
  | x :: xs => some (xs.foldl (fun best y => if f best < f y then y else best) x)

/-- The method `max(method_scores, key=...count)` selects in `suggest_method`:
the dict keys are the methods in first-occurrence order. -/
def selectedMethod (similar_patterns : List PatternRecord) : Option String :=
  argmaxFirst (methodCount similar_patterns)
    (dedupKeepFirst (similar_patterns.map (fun p => p.method)))

/-- `ResearchMemory.suggest_method`.  The per-method `avg_time` accumulated in
the source is never read for the selection or the returned value, so it is
not modelled. -/
def suggest_method {α : Type} (m : ResearchMemory α) (query : String) :
    Option String :=
  if m.patterns = [] then none
  else
    let query_type := classify_query query
    let similar_patterns := m.patterns.filter
      (fun p => p.query_type = query_type ∧ p.success = true)
    if similar_patterns = [] then none
    else
      match selectedMethod similar_patterns with
      | none => none
      | some best_method =>
        let confidence : ℚ :=
          (methodCount similar_patterns best_method : ℚ) / (similar_patterns.length : ℚ)
        if (0.6 : ℚ) < confidence then some best_method else none

section Cache

variable {α : Type}

-- The fingerprint function `hashlib.md5(query.encode()).hexdigest()`,
-- an external library routine modelled abstractly.
variable (md5 : String → String)

/-- `ResearchMemory.get_cached_result`: returns the cached result (if fresh)
together with the successor state.  A fresh in-memory hit bumps the entry's
`hits` and the global `cache_hits`; a fresh durable hit hydrates the entry
into the in-memory dict and bumps `cache_hits` only; otherwise the state is
unchanged and nothing is returned. -/
def get_cached_result (m : ResearchMemory α) (query : String) (now : ℚ) :
    Option α × ResearchMemory α :=
  let query_hash := md5 query
  let diskCheck : Option α × ResearchMemory α :=
    match lookupA m.diskCache query_hash with
    | some cached =>
      if now - cached.timestamp < 3600 then
        (some cached.result,
          { m with
            stats := { m.stats with cache_hits := m.stats.cache_hits + 1 },
            cache := updateA m.cache query_hash cached })
      else (none, m)
    | none => (none, m)
  match lookupA m.cache query_hash with
  | some cached =>
    if now - cached.timestamp < 3600 then
      (some cached.result,
        { m with
          stats := { m.stats with cache_hits := m.stats.cache_hits + 1 },
          cache := updateA m.cache query_hash { cached with hits := cached.hits + 1 } })
    else diskCheck
  | none => diskCheck

/-- `ResearchMemory.cache_result`: store the result under the query's
fingerprint in both the in-memory dict and the durable store. -/
def cache_result (m : ResearchMemory α) (query : String) (result : α)
    (now : ℚ) : ResearchMemory α :=
  let query_hash := md5 query
  let cached_data : CacheEntry α :=
    { query := query, result := result, timestamp := now, hits := 0 }
  { m with
    cache := updateA m.cache query_hash cached_data,
    diskCache := updateA m.diskCache query_hash cached_data }

/-- `ResearchMemory.cleanup_volatile`: delete every durable cache entry whose
age in hours strictly exceeds `max_age_hours`, returning the number removed.
The in-memory dict is untouched. -/
def cleanup_volatile (m : ResearchMemory α) (max_age_hours : ℚ) (now : ℚ) :
    ℕ × ResearchMemory α :=
  let isOld : String × CacheEntry α → Bool :=
    fun e => max_age_hours < (now - e.2.timestamp) / 3600
  let cleaned := (m.diskCache.filter isOld).length
  (cleaned, { m with diskCache := m.diskCache.filter (fun e => ! isOld e) })

end Cache

/-- The value returned by `get_insights`: either the single-field
`{"message": ...}` object, or the full report.  Percent/seconds string
formatting of `cache_hit_rate` and `avg_response_time` is presentation only;
the underlying numbers are kept. -/
inductive Insights where
  | message (msg : String)
  | report (total_patterns : ℕ) (patterns_learned : ℕ) (cache_hit_rate : ℚ)
      (query_types : List (String × ℕ))
      (method_preferences : List (String × ℕ))
      (best_combinations : List (String × ℕ × ℚ))
      (avg_response_time : ℚ)
deriving DecidableEq

/-- Tally of `query_type` occurrences across all records, in first-encounter
order (the `query_types` dict of `get_insights`). -/
def queryTypeCounts (patterns : List PatternRecord) : List (String × ℕ) :=
  patterns.foldl
    (fun acc p =>
      match lookupA acc p.query_type with
      | some n => updateA acc p.query_type (n + 1)
      | none => updateA acc p.query_type 1)
    []

/-- Tally of methods across successful records (the `method_preferences`
dict of `get_insights`). -/
def methodPreferences (patterns : List PatternRecord) : List (String × ℕ) :=
  patterns.foldl
    (fun acc p =>
      if p.success then
        match lookupA acc p.method with
        | some n => updateA acc p.method (n + 1)
        | none => updateA acc p.method 1
      else acc)
    []

/-- The `best_combos` dict of `get_insights`: per successful
`query_type → method` combination, its count and total response time
(the totals are divided by the counts afterwards). -/
def bestCombos (patterns : List PatternRecord) : List (String × ℕ × ℚ) :=
  patterns.foldl
    (fun acc p =>
      if p.success then
        let combo := p.query_type ++ " → " ++ p.method
        match lookupA acc combo with
        | some c => updateA acc combo (c.1 + 1, c.2 + p.response_time)
        | none => updateA acc combo (1, p.response_time)
      else acc)
    []

/-- `ResearchMemory.get_insights`: the message object on an empty log,
otherwise the full report (top-3 combinations by descending count, Python's
stable sort). -/
def get_insights {α : Type} (m : ResearchMemory α) : Insights :=
  if m.patterns = [] then Insights.message "No patterns learned yet"
  else
    let combos := (bestCombos m.patterns).map
      (fun e => (e.1, e.2.1, e.2.2 / (e.2.1 : ℚ)))
    Insights.report
      m.patterns.length
      m.stats.patterns_learned
      ((m.stats.cache_hits : ℚ) / (max 1 m.stats.total_queries : ℚ))
      (queryTypeCounts m.patterns)
      (methodPreferences m.patterns)
      ((combos.mergeSort (fun a b => b.2.1 ≤ a.2.1)).take 3)
      m.stats.avg_response_time

/-- One call into the caller-facing surface of the core (§6 of the spec). -/
inductive Op (α : Type) where
  | rememberOp (query method : String) (success : Bool) (response_time : ℚ)
      (citations_count : ℕ) (now : ℚ)
  | suggestOp (query : String)
  | getCachedOp (query : String) (now : ℚ)
  | cacheResultOp (query : String) (result : α) (now : ℚ)
  | getInsightsOp
  | cleanupOp (max_age_hours : ℚ) (now : ℚ)

/-- State transition of one operation (outputs discarded; `suggest` and
`get_insights` are read-only in the source). -/
def step {α : Type} (md5 : String → String) (m : ResearchMemory α) :
    Op α → ResearchMemory α
  | Op.rememberOp query method success response_time citations_count now =>
    remember_query m query method success response_time citations_count now
  | Op.suggestOp _ => m
  | Op.getCachedOp query now => (get_cached_result md5 m query now).2
  | Op.cacheResultOp query result now => cache_result md5 m query result now
  | Op.getInsightsOp => m
  | Op.cleanupOp max_age_hours now => (cleanup_volatile m max_age_hours now).2

/-- Run a sequence of operations from a state. -/
def run {α : Type} (md5 : String → String) (m : ResearchMemory α)
    (ops : List (Op α)) : ResearchMemory α :=
  ops.foldl (step md5) m

/-- Whether an operation is a `remember_query` call. -/
def Op.isRemember {α : Type} : Op α → Bool
  | Op.rememberOp _ _ _ _ _ _ => true
  | _ => false

/-- The classification of §4.1 of the spec, written as the spec words it:
a case split on the four keyword groups in priority order, first match
winning, over the lower-cased query. -/
def classifySpec (query : String) : String :=
  let q := strLower query
  if strContains q "landscape" || strContains q "comprehensive" ||
      strContains q "analyze" || strContains q "comparison" then
    "comprehensive_analysis"
  else if strContains q "how to" || strContains q "implement" ||
      strContains q "code" || strContains q "example" then
    "technical_implementation"
  else if strContains q "what is" || strContains q "define" ||
      strContains q "explain" then
    "conceptual_explanation"
  else if strContains q "best" || strContains q "recommend" ||
      strContains q "should" then
    "recommendation"
  else
    "general_research"

/-- The five query types of the closed enumeration. -/
def queryTypes : List String :=
  ["comprehensive_analysis", "technical_implementation", "conceptual_explanation",
   "recommendation", "general_research"]

/-- A sequence of successful `remember_query` calls with the given response
times (fixed query and method), as in the spec's running-average scenario. -/
def recordTimes (m : ResearchMemory Unit) (rts : List ℚ) : ResearchMemory Unit :=
  rts.foldl (fun s rt => remember_query s "q" "m" true rt 0 0) m

/-- Persistence of a cached result: the result `r` cached for `q` at time
`t1` is still present — both the in-memory dict and the durable store hold
an entry under the fingerprint of `q`
whose result is `r` and whose creation time is `t1` (only the hit counter
may drift). -/
def cacheEntryInv {α : Type} (md5 : String → String) (q : String) (r : α)
    (t1 : ℚ) (m : ResearchMemory α) : Prop :=
  (∃ e : CacheEntry α, lookupA m.cache (md5 q) = some e ∧
    e.result = r ∧ e.timestamp = t1) ∧
  (∃ d : CacheEntry α, lookupA m.diskCache (md5 q) = some d ∧
    d.result = r ∧ d.timestamp = t1)

/-- `similar_patterns` of `suggest_method`: the successful records of the
query's classified type. -/
def similarSuccess {α : Type} (m : ResearchMemory α) (query : String) :
    List PatternRecord :=
  m.patterns.filter
    (fun p => p.query_type = classify_query query ∧ p.success = true)

/-- A successful technical-implementation record for `method`, used in the
boundary scenarios of the confidence gate. -/
def techRecord (method : String) : PatternRecord :=
  { query := "how to do it", query_type := "technical_implementation",
    method := method, success := true, response_time := 1,
    citations_count := 0, timestamp := 0 }

/-- Two successful same-type records for A and one for B (confidence 2/3). -/
def twoOfThreeState : ResearchMemory Unit :=
  { patterns := [techRecord "A", techRecord "A", techRecord "B"],
    cache := [], diskCache := [], stats := Stats.fresh }

/-- Three successful same-type records for A and two for B (confidence
exactly 3/5). -/
def threeOfFiveState : ResearchMemory Unit :=
  { patterns := [techRecord "A", techRecord "A", techRecord "A",
                 techRecord "B", techRecord "B"],
    cache := [], diskCache := [], stats := Stats.fresh }

/-- C2: For every query string, classify is total and deterministic: it
returns exactly one of the five QueryTypes, equal to the result of testing
the lower-cased query for keyword substrings in the fixed priority order
{landscape, comprehensive, analyze, comparison} → comprehensive_analysis,
then {how to, implement, code, example} → technical_implementation, then
{what is, define, explain} → conceptual_explanation, then
{best, recommend, should} → recommendation, else general_research, with the
first match winning; repeated calls on the same text yield the same type. -/
theorem classify_total_deterministic (query : String) :
    classify_query query ∈ queryTypes ∧
    classify_query query = classifySpec query ∧
    classify_query query = classify_query query := by
  have h2 : classify_query query = classifySpec query := by
    unfold classify_query classifySpec
    simp only [List.any_cons, List.any_nil, Bool.or_false, Bool.or_assoc]
  refine ⟨?_, h2, rfl⟩
  rw [h2]
  unfold classifySpec queryTypes
  dsimp only
  split_ifs <;> simp

/-- C7: For every max_age_hours and every set of durable cache entries,
cleanup removes exactly those durable entries whose age in hours exceeds
max_age_hours, leaves every fresher durable entry and the entire in-memory
cache map unchanged, and returns an integer equal to the exact number of
entries removed. -/
theorem cleanup_exact {α : Type} (m : ResearchMemory α)
    (max_age_hours now : ℚ) :
    (∀ e ∈ m.diskCache,
      e ∈ (cleanup_volatile m max_age_hours now).2.diskCache ↔
        ¬ max_age_hours < (now - e.2.timestamp) / 3600) ∧
    (∀ e ∈ (cleanup_volatile m max_age_hours now).2.diskCache, e ∈ m.diskCache) ∧
    (cleanup_volatile m max_age_hours now).1 =
      (m.diskCache.filter
        (fun e => max_age_hours < (now - e.2.timestamp) / 3600)).length ∧
    (cleanup_volatile m max_age_hours now).1 +
        (cleanup_volatile m max_age_hours now).2.diskCache.length =
      m.diskCache.length ∧
    (cleanup_volatile m max_age_hours now).2.cache = m.cache ∧
    (cleanup_volatile m max_age_hours now).2.patterns = m.patterns ∧
    (cleanup_volatile m max_age_hours now).2.stats = m.stats := by
  unfold cleanup_volatile
  dsimp only
  refine ⟨?_, ?_, rfl, ?_, rfl, rfl, rfl⟩
  · intro e he
    simp [List.mem_filter, he]
  · intro e he
    exact (List.mem_filter.mp he).1
  · have h := List.length_eq_length_filter_add
      (l := m.diskCache)
      (fun e => decide (max_age_hours < (now - e.2.timestamp) / 3600))
    omega

/-- C10: When the pattern log is empty, get_insights returns only a message
object (a single "message" field) and none of the report fields; the full
insight report is produced only when at least one pattern record exists. -/
theorem get_insights_shape {α : Type} (m : ResearchMemory α) :
    (m.patterns = [] → get_insights m = Insights.message "No patterns learned yet") ∧
    (m.patterns ≠ [] →
      ∃ chr bcs, get_insights m =
        Insights.report m.patterns.length m.stats.patterns_learned chr
          (queryTypeCounts m.patterns) (methodPreferences m.patterns) bcs
          m.stats.avg_response_time) := by
  constructor
  · intro h
    simp [get_insights, h]
  · intro h
    unfold get_insights
    rw [if_neg h]
    exact ⟨_, _, rfl⟩

/-- Witness for C10 at concrete states: the empty log yields the message
object, a one-record log yields a report. -/
theorem get_insights_shape_witness :
    get_insights (ResearchMemory.fresh Unit) = Insights.message "No patterns learned yet" ∧
    ∃ chr bcs, get_insights
        (remember_query (ResearchMemory.fresh Unit) "q" "A" true 1 0 0) =
      Insights.report 1 0 chr
        (queryTypeCounts (remember_query (ResearchMemory.fresh Unit) "q" "A" true 1 0 0).patterns)
        (methodPreferences (remember_query (ResearchMemory.fresh Unit) "q" "A" true 1 0 0).patterns)
        bcs 1 := by
  constructor
  · exact (get_insights_shape (ResearchMemory.fresh Unit)).1 rfl
  · have h := (get_insights_shape
      (remember_query (ResearchMemory.fresh Unit) "q" "A" true 1 0 0)).2
      (by decide)
    have hlen : (remember_query (ResearchMemory.fresh Unit) "q" "A" true 1 0 0).patterns.length = 1 := by
      decide
    have hpl : (remember_query (ResearchMemory.fresh Unit) "q" "A" true 1 0 0).stats.patterns_learned = 0 := by
      decide
    have hart : (remember_query (ResearchMemory.fresh Unit) "q" "A" true 1 0 0).stats.avg_response_time = 1 := by
      decide
    rw [hlen, hpl, hart] at h
    exact h

/-- The statistics update of `remember_query`, isolated: the total is
incremented, and the stored average follows the source's two branches. -/
theorem remember_stats {α : Type} (m : ResearchMemory α) (query method : String)
    (success : Bool) (rt : ℚ) (cc : ℕ) (now : ℚ) :
    (remember_query m query method success rt cc now).stats.total_queries =
      m.stats.total_queries + 1 ∧
    (remember_query m query method success rt cc now).stats.avg_response_time =
      (if m.stats.avg_response_time = 0 then rt
       else (m.stats.avg_response_time * (((m.stats.total_queries + 1 : ℕ) : ℚ) - 1) + rt)
              / ((m.stats.total_queries + 1 : ℕ) : ℚ)) := by
  unfold remember_query learn_from_pattern
  dsimp only
  constructor
  · split
    · split <;> rfl
    · rfl
  · split
    · split <;> rfl
    · rfl

/-- The learner update of `remember_query`, isolated: `patterns_learned` is
bumped exactly when the call is successful and the appended log holds at
least 3 successful records of the call's (query_type, method). -/
theorem remember_learned {α : Type} (m : ResearchMemory α) (query method : String)
    (success : Bool) (rt : ℚ) (cc : ℕ) (now : ℚ) :
    (remember_query m query method success rt cc now).stats.patterns_learned =
      (if success = true ∧
          3 ≤ ((remember_query m query method success rt cc now).patterns.filter
            (fun p => p.query_type = classify_query query ∧ p.method = method ∧
              p.success = true)).length then
        m.stats.patterns_learned + 1
       else m.stats.patterns_learned) := by
  unfold remember_query learn_from_pattern
  dsimp only
  cases success with
  | false => simp
  | true => simp [apply_ite Stats.patterns_learned]

/-- C6: For every call to remember with success = true, if the number of
successful records sharing the new record's (query_type, method) is at least
3 after the append, then patterns_learned is incremented by exactly 1 on
that call (and is not incremented when the count is below 3 or success is
false); in particular, recording 3 successful records with identical
(query_type, method) from a fresh state increments patterns_learned by at
least 1 by the third record, and every later successful record of that pair
increments it again. -/
theorem learner_threshold {α : Type} (m : ResearchMemory α)
    (query method : String) (success : Bool) (rt : ℚ) (cc : ℕ) (now : ℚ) :
    (success = true →
      3 ≤ ((remember_query m query method success rt cc now).patterns.filter
          (fun p => p.query_type = classify_query query ∧ p.method = method ∧
            p.success = true)).length →
      (remember_query m query method success rt cc now).stats.patterns_learned =
        m.stats.patterns_learned + 1) ∧
    (((remember_query m query method success rt cc now).patterns.filter
        (fun p => p.query_type = classify_query query ∧ p.method = method ∧
          p.success = true)).length < 3 →
      (remember_query m query method success rt cc now).stats.patterns_learned =
        m.stats.patterns_learned) ∧
    (success = false →
      (remember_query m query method success rt cc now).stats.patterns_learned =
        m.stats.patterns_learned) ∧
    (recordTimes (ResearchMemory.fresh Unit) [1, 1]).stats.patterns_learned = 0 ∧
    (recordTimes (ResearchMemory.fresh Unit) [1, 1, 1]).stats.patterns_learned = 1 ∧
    (recordTimes (ResearchMemory.fresh Unit) [1, 1, 1, 1]).stats.patterns_learned = 2 := by
  refine ⟨?_, ?_, ?_, by decide, by decide, by decide⟩
  · intro hs hcnt
    rw [remember_learned, if_pos ⟨hs, hcnt⟩]
  · intro hcnt
    rw [remember_learned, if_neg]
    rintro ⟨-, h3⟩
    omega
  · intro hs
    rw [remember_learned, if_neg]
    rintro ⟨h, -⟩
    rw [hs] at h
    cases h

/-- Witness for C6 at a concrete call: the third identical successful record
crosses the threshold and bumps the counter; a failed call never does. -/
theorem learner_threshold_witness :
    (remember_query (recordTimes (ResearchMemory.fresh Unit) [1, 1]) "q" "m" true 1 0 0).stats.patterns_learned =
      (recordTimes (ResearchMemory.fresh Unit) [1, 1]).stats.patterns_learned + 1 ∧
    (remember_query (recordTimes (ResearchMemory.fresh Unit) [1, 1]) "q" "m" false 1 0 0).stats.patterns_learned =
      (recordTimes (ResearchMemory.fresh Unit) [1, 1]).stats.patterns_learned := by
  constructor
  · exact (learner_threshold (recordTimes (ResearchMemory.fresh Unit) [1, 1])
      "q" "m" true 1 0 0).1 rfl (by decide)
  · exact (learner_threshold (recordTimes (ResearchMemory.fresh Unit) [1, 1])
      "q" "m" false 1 0 0).2.2.1 rfl

/-- C5 counterexample: recording response times [0, 30] from a fresh state
stores an average of 30, while the claimed update rule
avg' = (avg*(n-1) + response_time)/n demands (0*(2-1)+30)/2 = 15. -/
theorem avg_update_claim_counterexample :
    (recordTimes (ResearchMemory.fresh Unit) [0, 30]).stats.total_queries = 2 ∧
    (recordTimes (ResearchMemory.fresh Unit) [0]).stats.avg_response_time = 0 ∧
    (recordTimes (ResearchMemory.fresh Unit) [0, 30]).stats.avg_response_time = 30 ∧
    ((0 : ℚ) * (2 - 1) + 30) / 2 = 15 ∧ (30 : ℚ) ≠ 15 := by
  refine ⟨by decide, by decide, by decide, by norm_num, by norm_num⟩

/-- Mean invariant of `recordTimes`: from a state whose stored average is the
(positive) mean of what was recorded so far, further non-negative times keep
the stored average equal to the overall mean. -/
theorem recordTimes_mean_inv (rts : List ℚ) :
    ∀ (s : ResearchMemory Unit) (S : ℚ) (n : ℕ),
      0 < n → 0 < S → (∀ x ∈ rts, 0 ≤ x) →
      s.stats.total_queries = n → s.stats.avg_response_time = S / (n : ℚ) →
      (recordTimes s rts).stats.avg_response_time =
        (S + rts.sum) / ((n : ℚ) + (rts.length : ℚ)) := by
  induction rts with
  | nil =>
    intro s S n hn hS _ htot havg
    simpa [recordTimes] using havg
  | cons rt rest ih =>
    intro s S n hn hS hnn htot havg
    have hstep := remember_stats s "q" "m" true rt 0 0
    have havg_pos : 0 < S / (n : ℚ) := by
      apply div_pos hS
      exact_mod_cast hn
    have havg_ne : s.stats.avg_response_time ≠ 0 := by
      rw [havg]; exact ne_of_gt havg_pos
    have hrt : 0 ≤ rt := hnn rt (List.mem_cons_self rt rest)
    have hrec : recordTimes s (rt :: rest) =
        recordTimes (remember_query s "q" "m" true rt 0 0) rest := rfl
    rw [hrec]
    have hnq : ((n : ℚ)) ≠ 0 := by exact_mod_cast hn.ne.symm
    have havg' : (remember_query s "q" "m" true rt 0 0).stats.avg_response_time =
        (S + rt) / ((n : ℚ) + 1) := by
      rw [hstep.2, if_neg havg_ne, htot, havg]
      push_cast
      field_simp
      try ring
    have htot' : (remember_query s "q" "m" true rt 0 0).stats.total_queries = n + 1 := by
      rw [hstep.1, htot]
    have := ih (remember_query s "q" "m" true rt 0 0) (S + rt) (n + 1)
      (Nat.succ_pos n) (by linarith) (fun x hx => hnn x (List.mem_cons_of_mem rt hx))
      htot' (by rw [havg']; push_cast; ring_nf)
    rw [this]
    push_cast [List.sum_cons, List.length_cons]
    ring

/-- Mean property from a fresh state for sequences beginning with a positive
time: the stored average equals the arithmetic mean. -/
theorem recordTimes_mean_fresh (r : ℚ) (rest : List ℚ) (hr : 0 < r)
    (hrest : ∀ x ∈ rest, 0 ≤ x) :
    (recordTimes (ResearchMemory.fresh Unit) (r :: rest)).stats.avg_response_time =
      (r :: rest).sum / ((r :: rest).length : ℚ) := by
  have hrec : recordTimes (ResearchMemory.fresh Unit) (r :: rest) =
      recordTimes (remember_query (ResearchMemory.fresh Unit) "q" "m" true r 0 0) rest := rfl
  rw [hrec]
  have hstep := remember_stats (ResearchMemory.fresh Unit) "q" "m" true r 0 0
  have havg1 : (remember_query (ResearchMemory.fresh Unit) "q" "m" true r 0 0).stats.avg_response_time =
      r / ((1 : ℕ) : ℚ) := by
    rw [hstep.2,
      if_pos (show (ResearchMemory.fresh Unit).stats.avg_response_time = 0 from rfl)]
    norm_num
  have htot1 : (remember_query (ResearchMemory.fresh Unit) "q" "m" true r 0 0).stats.total_queries = 1 :=
    hstep.1
  have := recordTimes_mean_inv rest
    (remember_query (ResearchMemory.fresh Unit) "q" "m" true r 0 0) r 1
    Nat.one_pos hr hrest htot1 havg1
  rw [this]
  push_cast [List.sum_cons, List.length_cons]
  ring

/-- C5 amended: the update rule avg' = (avg*(n-1) + response_time)/n (n the
new total count) holds on every call whose pre-call stored average is
nonzero; when the pre-call stored average is 0 the stored average is set
directly to response_time (which agrees with the rule on the very first
record but not after recording only zeros).  Consequently, after recording a
sequence of non-negative response times beginning with a positive one the
stored average equals their arithmetic mean; in particular after
[10, 20, 30] from a fresh state it equals 20.0. -/
theorem avg_update_amended {α : Type} (m : ResearchMemory α)
    (query method : String) (success : Bool) (rt : ℚ) (cc : ℕ) (now : ℚ) :
    (remember_query m query method success rt cc now).stats.total_queries =
      m.stats.total_queries + 1 ∧
    (m.stats.avg_response_time ≠ 0 →
      (remember_query m query method success rt cc now).stats.avg_response_time =
        (m.stats.avg_response_time * (((m.stats.total_queries + 1 : ℕ) : ℚ) - 1) + rt)
          / ((m.stats.total_queries + 1 : ℕ) : ℚ)) ∧
    (m.stats.avg_response_time = 0 →
      (remember_query m query method success rt cc now).stats.avg_response_time = rt) ∧
    (∀ (r : ℚ) (rest : List ℚ), 0 < r → (∀ x ∈ rest, 0 ≤ x) →
      (recordTimes (ResearchMemory.fresh Unit) (r :: rest)).stats.avg_response_time =
        (r :: rest).sum / ((r :: rest).length : ℚ)) ∧
    (recordTimes (ResearchMemory.fresh Unit) [10, 20, 30]).stats.avg_response_time = 20 := by
  have hstep := remember_stats m query method success rt cc now
  refine ⟨hstep.1, ?_, ?_, recordTimes_mean_fresh, ?_⟩
  · intro hne
    rw [hstep.2, if_neg hne]
  · intro h0
    rw [hstep.2, if_pos h0]
  · have := recordTimes_mean_fresh 10 [20, 30] (by norm_num)
      (by intro x hx; simp only [List.mem_cons, List.not_mem_nil, or_false] at hx
          rcases hx with h | h <;> norm_num [h])
    rw [this]
    norm_num

/-- Witness for C5's amended rule at a concrete call: from a state holding
one record of time 10 (average 10), recording 20 yields (10*(2-1)+20)/2 = 15. -/
theorem avg_update_amended_witness :
    (remember_query (recordTimes (ResearchMemory.fresh Unit) [10]) "q" "m" true 20 0 0).stats.avg_response_time = 15 := by
  have h := (avg_update_amended (recordTimes (ResearchMemory.fresh Unit) [10])
    "q" "m" true 20 0 0).2.1 (by decide)
  have htot : (recordTimes (ResearchMemory.fresh Unit) [10]).stats.total_queries = 1 := by decide
  have havg : (recordTimes (ResearchMemory.fresh Unit) [10]).stats.avg_response_time = 10 := by decide
  rw [htot, havg] at h
  rw [h]
  norm_num

/-- Each operation either appends to the pattern log (`remember_query`) or
leaves it untouched. -/
theorem step_patterns {α : Type} (md5 : String → String) (m : ResearchMemory α)
    (op : Op α) :
    (op.isRemember = false → (step md5 m op).patterns = m.patterns) ∧
    ∃ rest, (step md5 m op).patterns = m.patterns ++ rest := by
  cases op with
  | rememberOp query method success rt cc now =>
    constructor
    · intro h
      simp [Op.isRemember] at h
    · exact ⟨_, rfl⟩
  | suggestOp query => exact ⟨fun _ => rfl, [], by simp [step]⟩
  | getCachedOp query now =>
    have h : (step md5 m (Op.getCachedOp query now)).patterns = m.patterns := by
      show (get_cached_result md5 m query now).2.patterns = m.patterns
      unfold get_cached_result
      dsimp only
      split
      · split
        · rfl
        · split
          · split
            · rfl
            · rfl
          · rfl
      · split
        · split
          · rfl
          · rfl
        · rfl
    exact ⟨fun _ => h, [], by simp [h]⟩
  | cacheResultOp query result now => exact ⟨fun _ => rfl, [], by simp [step, cache_result]⟩
  | getInsightsOp => exact ⟨fun _ => rfl, [], by simp [step]⟩
  | cleanupOp max_age_hours now => exact ⟨fun _ => rfl, [], by simp [step, cleanup_volatile]⟩

/-- Running any operation sequence only ever extends the pattern log. -/
theorem run_patterns_extends {α : Type} (md5 : String → String) :
    ∀ (ops : List (Op α)) (m : ResearchMemory α),
      ∃ rest, (run md5 m ops).patterns = m.patterns ++ rest := by
  intro ops
  induction ops with
  | nil => exact fun m => ⟨[], by simp [run]⟩
  | cons op ops ih =>
    intro m
    obtain ⟨r0, h0⟩ := (step_patterns md5 m op).2
    obtain ⟨rest, hrest⟩ := ih (step md5 m op)
    refine ⟨r0 ++ rest, ?_⟩
    show (run md5 (step md5 m op) ops).patterns = m.patterns ++ (r0 ++ rest)
    rw [hrest, h0, List.append_assoc]

/-- C8: The pattern log is append-only: for every sequence of core
operations (remember, suggest, get_cached_result, cache_result,
get_insights, cleanup), once a pattern record has been appended to the log,
no operation mutates any of its fields or removes it; each remember call
appends exactly one record and every previously appended record is
preserved unchanged. -/
theorem pattern_log_append_only {α : Type} (md5 : String → String)
    (m : ResearchMemory α) (ops : List (Op α)) :
    (∃ rest, (run md5 m ops).patterns = m.patterns ++ rest) ∧
    (∀ (query method : String) (success : Bool) (rt : ℚ) (cc : ℕ) (now : ℚ),
      (step md5 m (Op.rememberOp query method success rt cc now)).patterns =
        m.patterns ++
          [{ query := query, query_type := classify_query query, method := method,
             success := success, response_time := rt, citations_count := cc,
             timestamp := now }]) ∧
    (∀ op : Op α, op.isRemember = false → (step md5 m op).patterns = m.patterns) := by
  refine ⟨run_patterns_extends md5 ops m, ?_, fun op h => (step_patterns md5 m op).1 h⟩
  intro query method success rt cc now
  rfl

/-- Witness for C8 at a concrete run: a remember followed by a suggest, a
cache write, a lookup and a cleanup extends the initially empty log, and the
suggest step alone leaves the log untouched. -/
theorem pattern_log_append_only_witness :
    (∃ rest, (run (fun s => s) (ResearchMemory.fresh Unit)
        [Op.rememberOp "q" "A" true 1 0 0, Op.suggestOp "q",
         Op.cacheResultOp "q" () 0, Op.getCachedOp "q" 1,
         Op.cleanupOp 24 2]).patterns = (ResearchMemory.fresh Unit).patterns ++ rest) ∧
    (step (fun s => s) (ResearchMemory.fresh Unit) (Op.suggestOp "q")).patterns =
      (ResearchMemory.fresh Unit).patterns :=
  ⟨(pattern_log_append_only (fun s => s) (ResearchMemory.fresh Unit)
      [Op.rememberOp "q" "A" true 1 0 0, Op.suggestOp "q",
       Op.cacheResultOp "q" () 0, Op.getCachedOp "q" 1,
       Op.cleanupOp 24 2]).1,
   (pattern_log_append_only (fun s => s) (ResearchMemory.fresh Unit) []).2.2
     (Op.suggestOp "q") rfl⟩

theorem lookupA_map_update {β : Type} (l : List (String × β)) (k : String) (v : β)
    (h : l.any (fun e => e.1 = k) = true) :
    lookupA (l.map (fun e => if e.1 = k then (k, v) else e)) k = some v := by
  induction l with
  | nil => simp at h
  | cons a tl ih =>
    simp only [List.any_cons, Bool.or_eq_true, decide_eq_true_eq] at h
    by_cases ha : a.1 = k
    · unfold lookupA
      rw [List.map_cons, if_pos ha, List.find?_cons_of_pos _ (by simp)]
      rfl
    · have htl : tl.any (fun e => e.1 = k) = true := by
        rcases h with h | h
        · exact absurd h ha
        · simpa using h
      unfold lookupA
      rw [List.map_cons, if_neg ha, List.find?_cons_of_neg _ (by simpa using ha)]
      exact ih htl

theorem lookupA_map_ne {β : Type} (l : List (String × β)) (k k' : String) (v : β)
    (hkk : k ≠ k') :
    lookupA (l.map (fun e => if e.1 = k' then (k', v) else e)) k = lookupA l k := by
  induction l with
  | nil => rfl
  | cons a tl ih =>
    by_cases ha : a.1 = k'
    · unfold lookupA
      rw [List.map_cons, if_pos ha,
        List.find?_cons_of_neg _ (by simpa using fun h => hkk h.symm),
        List.find?_cons_of_neg _ (by simp [ha]; exact fun h => hkk h.symm)]
      exact ih
    · unfold lookupA
      rw [List.map_cons, if_neg ha]
      by_cases hak : a.1 = k
      · rw [List.find?_cons_of_pos _ (by simpa using hak),
          List.find?_cons_of_pos _ (by simpa using hak)]
      · rw [List.find?_cons_of_neg _ (by simpa using hak),
          List.find?_cons_of_neg _ (by simpa using hak)]
        exact ih

theorem lookupA_append_single_self {β : Type} (l : List (String × β)) (k : String)
    (v : β) (h : l.any (fun e => e.1 = k) = false) :
    lookupA (l ++ [(k, v)]) k = some v := by
  induction l with
  | nil =>
    unfold lookupA
    rw [List.nil_append, List.find?_cons_of_pos _ (by simp)]
    rfl
  | cons a tl ih =>
    simp only [List.any_cons, Bool.or_eq_false_iff, decide_eq_false_iff_not] at h
    unfold lookupA
    rw [List.cons_append, List.find?_cons_of_neg _ (by simpa using h.1)]
    exact ih (by simpa using h.2)

theorem lookupA_append_single_ne {β : Type} (l : List (String × β)) (k k' : String)
    (v : β) (hkk : k ≠ k') :
    lookupA (l ++ [(k', v)]) k = lookupA l k := by
  induction l with
  | nil =>
    unfold lookupA
    rw [List.nil_append, List.find?_cons_of_neg _ (by simpa using fun h => hkk h.symm)]
  | cons a tl ih =>
    unfold lookupA
    by_cases hak : a.1 = k
    · rw [List.cons_append, List.find?_cons_of_pos _ (by simpa using hak),
        List.find?_cons_of_pos _ (by simpa using hak)]
    · rw [List.cons_append, List.find?_cons_of_neg _ (by simpa using hak),
        List.find?_cons_of_neg _ (by simpa using hak)]
      exact ih

/-- Updating a key and reading it back yields the new value. -/
theorem lookupA_updateA_self {β : Type} (l : List (String × β)) (k : String) (v : β) :
    lookupA (updateA l k v) k = some v := by
  unfold updateA
  split
  case isTrue h => exact lookupA_map_update l k v h
  case isFalse h =>
    exact lookupA_append_single_self l k v (by rw [← Bool.not_eq_true]; exact h)

/-- Updating one key leaves lookups of any other key unchanged. -/
theorem lookupA_updateA_ne {β : Type} (l : List (String × β)) (k k' : String) (v : β)
    (hkk : k ≠ k') :
    lookupA (updateA l k' v) k = lookupA l k := by
  unfold updateA
  split
  case isTrue h => exact lookupA_map_ne l k k' v hkk
  case isFalse h => exact lookupA_append_single_ne l k k' v hkk

/-- An update never drops a key. -/
theorem lookupA_updateA_isSome {β : Type} (l : List (String × β)) (k k' : String)
    (v : β) (h : (lookupA l k).isSome) :
    (lookupA (updateA l k' v) k).isSome := by
  by_cases hk : k = k'
  · subst hk
    rw [lookupA_updateA_self]
    rfl
  · rw [lookupA_updateA_ne l k k' v hk]
    exact h

/-- `get_cached_result` never touches the durable store. -/
theorem get_cached_diskCache_eq {α : Type} (md5 : String → String)
    (m : ResearchMemory α) (query : String) (now : ℚ) :
    (get_cached_result md5 m query now).2.diskCache = m.diskCache := by
  unfold get_cached_result
  dsimp only
  split
  · split
    · rfl
    · split
      · split
        · rfl
        · rfl
      · rfl
  · split
    · split
      · rfl
      · rfl
    · rfl

/-- A cache read preserves the cached-entry invariant for every query. -/
theorem get_cached_preserves_entry {α : Type} (md5 : String → String)
    (q : String) (r : α) (t1 : ℚ) (m : ResearchMemory α) (q' : String) (now' : ℚ)
    (hinv : cacheEntryInv md5 q r t1 m) :
    cacheEntryInv md5 q r t1 (get_cached_result md5 m q' now').2 := by
  obtain ⟨⟨e, he, her, het⟩, ⟨d, hd, hdr, hdt⟩⟩ := hinv
  have hdisk' : ∀ s : ResearchMemory α,
      s.diskCache = m.diskCache →
      ∃ d' : CacheEntry α, lookupA s.diskCache (md5 q) = some d' ∧
        d'.result = r ∧ d'.timestamp = t1 :=
    fun s hs => ⟨d, by rw [hs]; exact hd, hdr, hdt⟩
  by_cases hk : md5 q' = md5 q
  · unfold get_cached_result
    dsimp only
    rw [hk, he, hd]
    dsimp only
    split
    · exact ⟨⟨{ e with hits := e.hits + 1 }, by
        rw [lookupA_updateA_self], her, het⟩, ⟨d, hd, hdr, hdt⟩⟩
    · split
      · exact ⟨⟨d, by rw [lookupA_updateA_self], hdr, hdt⟩, ⟨d, hd, hdr, hdt⟩⟩
      · exact ⟨⟨e, he, her, het⟩, ⟨d, hd, hdr, hdt⟩⟩
  · have hne : md5 q ≠ md5 q' := fun h => hk h.symm
    unfold get_cached_result
    dsimp only
    cases hc : lookupA m.cache (md5 q') with
    | some c =>
      dsimp only
      split
      · exact ⟨⟨e, by rw [lookupA_updateA_ne _ _ _ _ hne]; exact he, her, het⟩,
          ⟨d, hd, hdr, hdt⟩⟩
      · cases hdc : lookupA m.diskCache (md5 q') with
        | some dc =>
          dsimp only
          split
          · exact ⟨⟨e, by rw [lookupA_updateA_ne _ _ _ _ hne]; exact he, her, het⟩,
              ⟨d, hd, hdr, hdt⟩⟩
          · exact ⟨⟨e, he, her, het⟩, ⟨d, hd, hdr, hdt⟩⟩
        | none => exact ⟨⟨e, he, her, het⟩, ⟨d, hd, hdr, hdt⟩⟩
    | none =>
      dsimp only
      cases hdc : lookupA m.diskCache (md5 q') with
      | some dc =>
        dsimp only
        split
        · exact ⟨⟨e, by rw [lookupA_updateA_ne _ _ _ _ hne]; exact he, her, het⟩,
            ⟨d, hd, hdr, hdt⟩⟩
        · exact ⟨⟨e, he, her, het⟩, ⟨d, hd, hdr, hdt⟩⟩
      | none => exact ⟨⟨e, he, her, het⟩, ⟨d, hd, hdr, hdt⟩⟩

/-- Every operation other than a cache write for the same query (or a
collision) and a cleanup preserves the cached-entry invariant. -/
theorem step_preserves_entry {α : Type} (md5 : String → String)
    (hinj : Function.Injective md5) (q : String) (r : α) (t1 : ℚ)
    (m : ResearchMemory α) (op : Op α)
    (hop1 : ∀ (res : α) (now : ℚ), op ≠ Op.cacheResultOp q res now)
    (hop2 : ∀ (ma now : ℚ), op ≠ Op.cleanupOp ma now)
    (hinv : cacheEntryInv md5 q r t1 m) :
    cacheEntryInv md5 q r t1 (step md5 m op) := by
  obtain ⟨⟨e, he, her, het⟩, ⟨d, hd, hdr, hdt⟩⟩ := hinv
  cases op with
  | rememberOp query method success rt cc now =>
    exact ⟨⟨e, he, her, het⟩, ⟨d, hd, hdr, hdt⟩⟩
  | suggestOp query => exact ⟨⟨e, he, her, het⟩, ⟨d, hd, hdr, hdt⟩⟩
  | getInsightsOp => exact ⟨⟨e, he, her, het⟩, ⟨d, hd, hdr, hdt⟩⟩
  | cleanupOp ma now => exact absurd rfl (hop2 ma now)
  | getCachedOp q' now' =>
    exact get_cached_preserves_entry md5 q r t1 m q' now' ⟨⟨e, he, her, het⟩, ⟨d, hd, hdr, hdt⟩⟩
  | cacheResultOp q' res now =>
    have hq : q' ≠ q := by
      intro h
      exact hop1 res now (by rw [h])
    have hne : md5 q ≠ md5 q' := fun h => hq (hinj h.symm)
    refine ⟨⟨e, ?_, her, het⟩, ⟨d, ?_, hdr, hdt⟩⟩
    · show lookupA (cache_result md5 m q' res now).cache (md5 q) = some e
      unfold cache_result
      dsimp only
      rw [lookupA_updateA_ne _ _ _ _ hne]
      exact he
    · show lookupA (cache_result md5 m q' res now).diskCache (md5 q) = some d
      unfold cache_result
      dsimp only
      rw [lookupA_updateA_ne _ _ _ _ hne]
      exact hd

/-- The cached-entry invariant survives any allowed operation sequence. -/
theorem run_preserves_entry {α : Type} (md5 : String → String)
    (hinj : Function.Injective md5) (q : String) (r : α) (t1 : ℚ) :
    ∀ (ops : List (Op α)) (m : ResearchMemory α),
      (∀ op ∈ ops, (∀ (res : α) (now : ℚ), op ≠ Op.cacheResultOp q res now) ∧
        (∀ (ma now : ℚ), op ≠ Op.cleanupOp ma now)) →
      cacheEntryInv md5 q r t1 m →
      cacheEntryInv md5 q r t1 (run md5 m ops) := by
  intro ops
  induction ops with
  | nil => exact fun m _ h => h
  | cons op ops ih =>
    intro m hops hinv
    have hop := hops op (List.mem_cons_self op ops)
    have hrest : ∀ o ∈ ops, (∀ (res : α) (now : ℚ), o ≠ Op.cacheResultOp q res now) ∧
        (∀ (ma now : ℚ), o ≠ Op.cleanupOp ma now) :=
      fun o ho => hops o (List.mem_cons_of_mem op ho)
    exact ih (step md5 m op) hrest
      (step_preserves_entry md5 hinj q r t1 m op hop.1 hop.2 hinv)

/-- C3: For every query q and every result r, calling cache_result(q, r) and
then get_cached_result(q) within the 3600-second TTL (with no intervening
cache_result for q and no cleanup) returns exactly r.  The fingerprint is
assumed collision-free (injective), as the spec's content-addressing
contract requires. -/
theorem cache_round_trip {α : Type} (md5 : String → String)
    (hinj : Function.Injective md5) (m : ResearchMemory α) (q : String) (r : α)
    (t1 t2 : ℚ) (ops : List (Op α)) (httl : t2 - t1 < 3600)
    (hops : ∀ op ∈ ops, (∀ (res : α) (now : ℚ), op ≠ Op.cacheResultOp q res now) ∧
      (∀ (ma now : ℚ), op ≠ Op.cleanupOp ma now)) :
    (get_cached_result md5 (run md5 (cache_result md5 m q r t1) ops) q t2).1 = some r := by
  have hinv0 : cacheEntryInv md5 q r t1 (cache_result md5 m q r t1) := by
    constructor
    · refine ⟨{ query := q, result := r, timestamp := t1, hits := 0 }, ?_, rfl, rfl⟩
      show lookupA (updateA m.cache (md5 q) _) (md5 q) = _
      rw [lookupA_updateA_self]
    · refine ⟨{ query := q, result := r, timestamp := t1, hits := 0 }, ?_, rfl, rfl⟩
      show lookupA (updateA m.diskCache (md5 q) _) (md5 q) = _
      rw [lookupA_updateA_self]
  obtain ⟨⟨e, he, her, het⟩, -⟩ :=
    run_preserves_entry md5 hinj q r t1 ops (cache_result md5 m q r t1) hops hinv0
  unfold get_cached_result
  dsimp only
  rw [he]
  dsimp only
  rw [het, if_pos httl, her]

/-- Witness for C3: caching 7 under "q" at time 0 and reading it back at
time 10 after an intervening remember and an unrelated lookup returns 7. -/
theorem cache_round_trip_witness :
    (get_cached_result (fun s => s)
      (run (fun s => s) (cache_result (fun s => s) (ResearchMemory.fresh ℕ) "q" 7 0)
        [Op.rememberOp "x" "A" true 1 0 1, Op.getCachedOp "other" 2]) "q" 10).1 = some 7 := by
  apply cache_round_trip (fun s => s) (fun a b h => h) (ResearchMemory.fresh ℕ) "q" 7 0 10
  · norm_num
  · intro op hop
    simp only [List.mem_cons, List.not_mem_nil, or_false] at hop
    rcases hop with h | h <;> subst h <;>
      exact ⟨fun res now h => (by cases h), fun ma now h => (by cases h)⟩

/-- C4: For every cache entry, get_cached_result returns its stored result
if and only if now - created_at < 3600 seconds (strict inequality): an entry
with created_at = now - 3601s is not returned (nothing is returned if no
other entry matches), while one with created_at = now - 3599s is returned. -/
theorem ttl_boundary {α : Type} (md5 : String → String) (m : ResearchMemory α)
    (q : String) (now : ℚ) (e : CacheEntry α) :
    (lookupA m.cache (md5 q) = some e → lookupA m.diskCache (md5 q) = none →
      ((get_cached_result md5 m q now).1 = some e.result ↔ now - e.timestamp < 3600)) ∧
    (lookupA m.cache (md5 q) = none → lookupA m.diskCache (md5 q) = some e →
      ((get_cached_result md5 m q now).1 = some e.result ↔ now - e.timestamp < 3600)) ∧
    (get_cached_result (fun s => s)
      { patterns := [], cache := [("q", ⟨"q", (5 : ℕ), now - 3601, 0⟩)],
        diskCache := [], stats := Stats.fresh } "q" now).1 = none ∧
    (get_cached_result (fun s => s)
      { patterns := [], cache := [("q", ⟨"q", (5 : ℕ), now - 3599, 0⟩)],
        diskCache := [], stats := Stats.fresh } "q" now).1 = some 5 := by
  refine ⟨?_, ?_, ?_, ?_⟩
  · intro hmem hdisk
    unfold get_cached_result
    dsimp only
    rw [hmem, hdisk]
    dsimp only
    by_cases hc : now - e.timestamp < 3600
    · rw [if_pos hc]
      simp [hc]
    · rw [if_neg hc]
      simp [hc]
  · intro hmem hdisk
    unfold get_cached_result
    dsimp only
    rw [hmem, hdisk]
    dsimp only
    by_cases hc : now - e.timestamp < 3600
    · rw [if_pos hc]
      simp [hc]
    · rw [if_neg hc]
      simp [hc]
  · have hst : ¬ (now - (now - 3601) < (3600 : ℚ)) := by
      rw [sub_sub_cancel]
      norm_num
    unfold get_cached_result lookupA
    dsimp only
    rw [List.find?_cons_of_pos _ (by simp)]
    simp only [Option.map_some', Option.map_none', List.find?_nil]
    rw [if_neg hst]
  · have hfr : now - (now - 3599) < (3600 : ℚ) := by
      rw [sub_sub_cancel]
      norm_num
    unfold get_cached_result lookupA
    dsimp only
    rw [List.find?_cons_of_pos _ (by simp)]
    simp only [Option.map_some', Option.map_none', List.find?_nil]
    rw [if_pos hfr]

/-- Witness for C4: a fresh in-memory entry (age 10s) is returned, and the
boundary instance of the theorem at now = 4000 excludes the 3601s-old entry. -/
theorem ttl_boundary_witness :
    (get_cached_result (fun s => s)
      { patterns := [], cache := [("q", ⟨"q", (5 : ℕ), 0, 0⟩)],
        diskCache := [], stats := Stats.fresh } "q" 10).1 = some 5 ∧
    (get_cached_result (fun s => s)
      { patterns := [], cache := [("q", ⟨"q", (5 : ℕ), 4000 - 3601, 0⟩)],
        diskCache := [], stats := Stats.fresh } "q" 4000).1 = none := by
  constructor
  · exact ((ttl_boundary (fun s => s)
      { patterns := [], cache := [("q", ⟨"q", (5 : ℕ), 0, 0⟩)],
        diskCache := [], stats := Stats.fresh } "q" 10
      ⟨"q", (5 : ℕ), 0, 0⟩).1 rfl rfl).mpr (by norm_num)
  · exact (ttl_boundary (fun s => s) (ResearchMemory.fresh ℕ) "q" 4000
      ⟨"q", (5 : ℕ), 0, 0⟩).2.2.1


/-- A cache read never drops a key from the in-memory dict. -/
theorem get_cached_cache_isSome {α : Type} (md5 : String → String)
    (m : ResearchMemory α) (query : String) (now : ℚ) (k : String)
    (h : (lookupA m.cache k).isSome) :
    (lookupA (get_cached_result md5 m query now).2.cache k).isSome := by
  unfold get_cached_result
  dsimp only
  split
  · split
    · exact lookupA_updateA_isSome m.cache k (md5 query) _ h
    · split
      · split
        · exact lookupA_updateA_isSome m.cache k (md5 query) _ h
        · exact h
      · exact h
  · split
    · split
      · exact lookupA_updateA_isSome m.cache k (md5 query) _ h
      · exact h
    · exact h

/-- C9: For every query, get_cached_result removes no cache entry from
either the in-memory map or durable storage (even when the matching entry is
stale), and on the durable-hydration path (entry absent from memory but
present and fresh on disk) it loads the entry into the in-memory map and
increments the global cache_hits counter but does not increment that entry's
hit_count, whereas an in-memory fresh hit increments the entry's hit_count
by 1. -/
theorem get_cached_frame {α : Type} (md5 : String → String)
    (m : ResearchMemory α) (q : String) (now : ℚ) :
    (get_cached_result md5 m q now).2.diskCache = m.diskCache ∧
    (∀ k, (lookupA m.cache k).isSome →
      (lookupA (get_cached_result md5 m q now).2.cache k).isSome) ∧
    (∀ e : CacheEntry α, lookupA m.cache (md5 q) = none →
      lookupA m.diskCache (md5 q) = some e → now - e.timestamp < 3600 →
      (get_cached_result md5 m q now).1 = some e.result ∧
      lookupA (get_cached_result md5 m q now).2.cache (md5 q) = some e ∧
      (get_cached_result md5 m q now).2.stats.cache_hits = m.stats.cache_hits + 1) ∧
    (∀ e : CacheEntry α, lookupA m.cache (md5 q) = some e →
      now - e.timestamp < 3600 →
      (get_cached_result md5 m q now).1 = some e.result ∧
      lookupA (get_cached_result md5 m q now).2.cache (md5 q) =
        some { e with hits := e.hits + 1 } ∧
      (get_cached_result md5 m q now).2.stats.cache_hits = m.stats.cache_hits + 1) := by
  refine ⟨get_cached_diskCache_eq md5 m q now,
    fun k h => get_cached_cache_isSome md5 m q now k h, ?_, ?_⟩
  · intro e hmem hdisk hfresh
    unfold get_cached_result
    dsimp only
    rw [hmem, hdisk]
    dsimp only
    rw [if_pos hfresh]
    exact ⟨rfl, by rw [lookupA_updateA_self], rfl⟩
  · intro e hmem hfresh
    unfold get_cached_result
    dsimp only
    rw [hmem]
    dsimp only
    rw [if_pos hfresh]
    exact ⟨rfl, by rw [lookupA_updateA_self], rfl⟩

/-- Witness for C9: a fresh in-memory hit bumps the entry's hit counter and
the global counter; a disk-only entry is hydrated without bumping its own
counter; the durable store is untouched in both cases. -/
theorem get_cached_frame_witness :
    (get_cached_result (fun s => s)
      { patterns := [], cache := [("q", ⟨"q", (5 : ℕ), 0, 0⟩)], diskCache := [],
        stats := Stats.fresh } "q" 10).1 = some 5 ∧
    lookupA (get_cached_result (fun s => s)
      { patterns := [], cache := [("q", ⟨"q", (5 : ℕ), 0, 0⟩)], diskCache := [],
        stats := Stats.fresh } "q" 10).2.cache "q" = some ⟨"q", (5 : ℕ), 0, 1⟩ ∧
    (get_cached_result (fun s => s)
      { patterns := [], cache := [], diskCache := [("q", ⟨"q", (7 : ℕ), 0, 0⟩)],
        stats := Stats.fresh } "q" 10).1 = some 7 ∧
    lookupA (get_cached_result (fun s => s)
      { patterns := [], cache := [], diskCache := [("q", ⟨"q", (7 : ℕ), 0, 0⟩)],
        stats := Stats.fresh } "q" 10).2.cache "q" = some ⟨"q", (7 : ℕ), 0, 0⟩ ∧
    (get_cached_result (fun s => s)
      { patterns := [], cache := [], diskCache := [("q", ⟨"q", (7 : ℕ), 0, 0⟩)],
        stats := Stats.fresh } "q" 10).2.diskCache = [("q", ⟨"q", (7 : ℕ), 0, 0⟩)] := by
  have hmemhit := (get_cached_frame (fun s => s)
    { patterns := [], cache := [("q", ⟨"q", (5 : ℕ), 0, 0⟩)], diskCache := [],
      stats := Stats.fresh } "q" 10).2.2.2 ⟨"q", (5 : ℕ), 0, 0⟩ rfl (by norm_num)
  have hhyd := (get_cached_frame (fun s => s)
    { patterns := [], cache := [], diskCache := [("q", ⟨"q", (7 : ℕ), 0, 0⟩)],
      stats := Stats.fresh } "q" 10).2.2.1 ⟨"q", (7 : ℕ), 0, 0⟩ rfl rfl (by norm_num)
  have hdisk := (get_cached_frame (fun s => s)
    { patterns := [], cache := [], diskCache := [("q", ⟨"q", (7 : ℕ), 0, 0⟩)],
      stats := Stats.fresh } "q" 10).1
  exact ⟨hmemhit.1, hmemhit.2.1, hhyd.1, hhyd.2.1, hdisk⟩


/-- Characterisation of Python's first-wins `max` fold: the result is in the
list, attains the maximal key, and everything strictly before its first
occurrence has a strictly smaller key. -/
theorem argmax_foldl_spec (f : String → ℕ) :
    ∀ (xs : List String) (x : String),
      (xs.foldl (fun best y => if f best < f y then y else best) x) ∈ x :: xs ∧
      (∀ y ∈ x :: xs,
        f y ≤ f (xs.foldl (fun best y => if f best < f y then y else best) x)) ∧
      (∀ y ∈ (x :: xs).takeWhile
          (fun z => z ≠ (xs.foldl (fun best y => if f best < f y then y else best) x)),
        f y < f (xs.foldl (fun best y => if f best < f y then y else best) x)) := by
  intro xs
  induction xs with
  | nil =>
    intro x
    refine ⟨List.mem_cons_self x [], ?_, ?_⟩
    · intro y hy
      rcases List.mem_cons.mp hy with rfl | h
      · exact le_refl _
      · cases h
    · intro y hy
      rw [List.foldl_nil, List.takeWhile_cons_of_neg (by simp)] at hy
      cases hy
  | cons z zs ih =>
    intro x
    rw [List.foldl_cons]
    obtain ⟨hmem, hmax, htw⟩ := ih (if f x < f z then z else x)
    set x' := if f x < f z then z else x with hxd
    set b := zs.foldl (fun best y => if f best < f y then y else best) x' with hbdef
    have hxx : f x ≤ f x' := by
      rw [hxd]
      split
      · exact le_of_lt (by assumption)
      · exact le_refl _
    have hzx : f z ≤ f x' := by
      rw [hxd]
      split
      · exact le_refl _
      · exact le_of_not_lt (by assumption)
    have hx'b : f x' ≤ f b := hmax _ (List.mem_cons_self _ _)
    have hxb : f x ≤ f b := le_trans hxx hx'b
    have hzb : f z ≤ f b := le_trans hzx hx'b
    refine ⟨?_, ?_, ?_⟩
    · rcases List.mem_cons.mp hmem with hb | hb
      · rw [hb, hxd]
        split
        · exact List.mem_cons_of_mem _ (List.mem_cons_self _ _)
        · exact List.mem_cons_self _ _
      · exact List.mem_cons_of_mem _ (List.mem_cons_of_mem _ hb)
    · intro y hy
      rcases List.mem_cons.mp hy with rfl | hy
      · exact hxb
      · rcases List.mem_cons.mp hy with rfl | hy
        · exact hzb
        · exact hmax y (List.mem_cons_of_mem _ hy)
    · intro y hy
      by_cases hxbne : x = b
      · rw [List.takeWhile_cons_of_neg (by simp [hxbne])] at hy
        cases hy
      · have hfxb : f x < f b := by
          by_cases hx'ne : x' = b
          · rcases (show x' = z ∨ x' = x from by
                rw [hxd]; split
                · exact Or.inl rfl
                · exact Or.inr rfl) with h | h
            · have hlt : f x < f z := by
                by_contra hnot
                have hxx' : x' = x := by rw [hxd, if_neg hnot]
                apply hxbne
                rw [← hxx']
                exact hx'ne
              exact lt_of_lt_of_le hlt hzb
            · exact absurd (h ▸ hx'ne) hxbne
          · have := htw x'
              (by rw [List.takeWhile_cons_of_pos (by simp [hx'ne])]
                  exact List.mem_cons_self _ _)
            exact lt_of_le_of_lt hxx this
        rw [List.takeWhile_cons_of_pos (by simp [hxbne])] at hy
        rcases List.mem_cons.mp hy with rfl | hy
        · exact hfxb
        · by_cases hzbne : z = b
          · rw [List.takeWhile_cons_of_neg (by simp [hzbne])] at hy
            cases hy
          · have hx'ne : x' ≠ b := by
              rw [hxd]
              split
              · exact hzbne
              · exact hxbne
            have htk := htw
            rw [List.takeWhile_cons_of_pos (by simp [hx'ne])] at htk
            rw [List.takeWhile_cons_of_pos (by simp [hzbne])] at hy
            rcases List.mem_cons.mp hy with rfl | hy
            · by_cases hlt : f x < f y
              · have hx'y : x' = y := by rw [hxd, if_pos hlt]
                have hlt2 := htk x' (List.mem_cons_self _ _)
                rw [hx'y] at hlt2
                exact hlt2
              · exact lt_of_le_of_lt (le_of_not_lt hlt) hfxb
            · exact htk y (List.mem_cons_of_mem _ hy)

theorem mem_dedup_foldl (l : List String) :
    ∀ (acc : List String) (x : String),
      (x ∈ l.foldl (fun acc y => if y ∈ acc then acc else acc ++ [y]) acc ↔
        x ∈ acc ∨ x ∈ l) := by
  induction l with
  | nil =>
    intro acc x
    simp
  | cons y ys ih =>
    intro acc x
    rw [List.foldl_cons, ih]
    by_cases hy : y ∈ acc
    · rw [if_pos hy]
      simp only [List.mem_cons]
      constructor
      · rintro (h | h)
        · exact Or.inl h
        · exact Or.inr (Or.inr h)
      · rintro (h | rfl | h)
        · exact Or.inl h
        · exact Or.inl hy
        · exact Or.inr h
    · rw [if_neg hy]
      simp only [List.mem_append, List.mem_cons, List.not_mem_nil, or_false]
      constructor
      · rintro ((h | rfl) | h)
        · exact Or.inl h
        · exact Or.inr (Or.inl rfl)
        · exact Or.inr (Or.inr h)
      · rintro (h | rfl | h)
        · exact Or.inl (Or.inl h)
        · exact Or.inl (Or.inr rfl)
        · exact Or.inr h

/-- The dict-key order holds exactly the values of the original list. -/
theorem mem_dedupKeepFirst (l : List String) (x : String) :
    x ∈ dedupKeepFirst l ↔ x ∈ l := by
  unfold dedupKeepFirst
  rw [mem_dedup_foldl]
  simp

/-- `suggest_method` unfolded through `similarSuccess` and `selectedMethod`. -/
theorem suggest_method_eq {α : Type} (m : ResearchMemory α) (query : String) :
    suggest_method m query =
      (if m.patterns = [] then none
       else if similarSuccess m query = [] then none
       else
         match selectedMethod (similarSuccess m query) with
         | none => none
         | some best_method =>
           if (0.6 : ℚ) < (methodCount (similarSuccess m query) best_method : ℚ) /
               ((similarSuccess m query).length : ℚ) then
             some best_method
           else none) := rfl

/-- C1: For every state of the pattern log and every query, suggest returns
the method with the highest occurrence count among successful records of the
query's type (ties broken by encounter order: the first method reaching the
maximum is selected) if and only if that method's count divided by the total
number of successful records of that type is strictly greater than 0.6;
otherwise it returns nothing — in particular, with exactly 3 of 5 successful
same-type records for a method (confidence exactly 0.6) it returns nothing,
and with 2 of 3 for method A it returns A. -/
theorem suggest_confidence_gate {α : Type} (m : ResearchMemory α) (query : String) :
    (∀ b : String, selectedMethod (similarSuccess m query) = some b →
      b ∈ (similarSuccess m query).map (fun p => p.method) ∧
      (∀ meth ∈ (similarSuccess m query).map (fun p => p.method),
        methodCount (similarSuccess m query) meth ≤
          methodCount (similarSuccess m query) b) ∧
      (∀ meth ∈ (dedupKeepFirst
          ((similarSuccess m query).map (fun p => p.method))).takeWhile
            (fun z => z ≠ b),
        methodCount (similarSuccess m query) meth <
          methodCount (similarSuccess m query) b) ∧
      (suggest_method m query = some b ↔
        (0.6 : ℚ) < (methodCount (similarSuccess m query) b : ℚ) /
          ((similarSuccess m query).length : ℚ)) ∧
      (¬ ((0.6 : ℚ) < (methodCount (similarSuccess m query) b : ℚ) /
          ((similarSuccess m query).length : ℚ)) →
        suggest_method m query = none)) ∧
    (selectedMethod (similarSuccess m query) = none →
      suggest_method m query = none) ∧
    suggest_method twoOfThreeState "how to do it" = some "A" ∧
    suggest_method threeOfFiveState "how to do it" = none := by
  have hcl : classify_query "how to do it" = "technical_implementation" := by decide
  refine ⟨?_, ?_, ?_, ?_⟩
  · intro b hb
    have hb' : argmaxFirst (methodCount (similarSuccess m query))
        (dedupKeepFirst ((similarSuccess m query).map (fun p => p.method))) =
        some b := hb
    rcases hcase : dedupKeepFirst ((similarSuccess m query).map (fun p => p.method))
      with _ | ⟨x, xs⟩
    · rw [hcase] at hb'
      simp [argmaxFirst] at hb'
    · rw [hcase] at hb'
      simp only [argmaxFirst, Option.some.injEq] at hb'
      obtain ⟨hmem, hmax, htw⟩ :=
        argmax_foldl_spec (methodCount (similarSuccess m query)) xs x
      rw [hb'] at hmem hmax htw
      have hsim : similarSuccess m query ≠ [] := by
        intro h
        rw [h] at hcase
        simp [dedupKeepFirst] at hcase
      have hpat : m.patterns ≠ [] := by
        intro h
        apply hsim
        unfold similarSuccess
        rw [h]
        rfl
      refine ⟨?_, ?_, ?_, ?_, ?_⟩
      · exact (mem_dedupKeepFirst _ b).mp (hcase ▸ hmem)
      · intro meth hmeth
        exact hmax meth (hcase ▸ (mem_dedupKeepFirst _ meth).mpr hmeth)
      · intro meth hmeth
        exact htw meth (hcase ▸ hmeth)
      · rw [suggest_method_eq, if_neg hpat, if_neg hsim, hb]
        dsimp only
        by_cases hconf : (0.6 : ℚ) < (methodCount (similarSuccess m query) b : ℚ) /
            ((similarSuccess m query).length : ℚ)
        · rw [if_pos hconf]
          simp [hconf]
        · rw [if_neg hconf]
          simp [hconf]
      · intro hconf
        rw [suggest_method_eq, if_neg hpat, if_neg hsim, hb]
        dsimp only
        rw [if_neg hconf]
  · intro hnone
    by_cases hpat : m.patterns = []
    · rw [suggest_method_eq, if_pos hpat]
    · by_cases hsim : similarSuccess m query = []
      · rw [suggest_method_eq, if_neg hpat, if_pos hsim]
      · rw [suggest_method_eq, if_neg hpat, if_neg hsim, hnone]
  · simp +decide [twoOfThreeState, suggest_method, selectedMethod, argmaxFirst,
      dedupKeepFirst, methodCount, hcl, techRecord]
    try norm_num
  · simp +decide [threeOfFiveState, suggest_method, selectedMethod, argmaxFirst,
      dedupKeepFirst, methodCount, hcl, techRecord]
    try norm_num

/-- Witness for C1: on the 2-of-3 state the selected method is A with
confidence 2/3 > 0.6, so suggest returns A, via the gate theorem. -/
theorem suggest_confidence_gate_witness :
    suggest_method twoOfThreeState "how to do it" = some "A" := by
  have h := (suggest_confidence_gate twoOfThreeState "how to do it").1 "A" (by decide)
  have hc : methodCount (similarSuccess twoOfThreeState "how to do it") "A" = 2 := by
    decide
  have hl : (similarSuccess twoOfThreeState "how to do it").length = 3 := by decide
  apply h.2.2.2.1.mpr
  rw [hc, hl]
  norm_num


/-- Witness for C7: with max_age_hours = 1 at time 10000, the entry created
at time 0 (age ≈ 2.8h) is removed while the entry created at 8000
(age ≈ 0.56h) survives, and the in-memory map is untouched. -/
theorem cleanup_exact_witness :
    ("a", (⟨"a", (1 : ℕ), 0, 0⟩ : CacheEntry ℕ)) ∉
      (cleanup_volatile
        { patterns := [], cache := [("a", ⟨"a", (1 : ℕ), 0, 0⟩)],
          diskCache := [("a", ⟨"a", (1 : ℕ), 0, 0⟩), ("b", ⟨"b", (2 : ℕ), 8000, 0⟩)],
          stats := Stats.fresh } 1 10000).2.diskCache ∧
    ("b", (⟨"b", (2 : ℕ), 8000, 0⟩ : CacheEntry ℕ)) ∈
      (cleanup_volatile
        { patterns := [], cache := [("a", ⟨"a", (1 : ℕ), 0, 0⟩)],
          diskCache := [("a", ⟨"a", (1 : ℕ), 0, 0⟩), ("b", ⟨"b", (2 : ℕ), 8000, 0⟩)],
          stats := Stats.fresh } 1 10000).2.diskCache ∧
    (cleanup_volatile
        { patterns := [], cache := [("a", ⟨"a", (1 : ℕ), 0, 0⟩)],
          diskCache := [("a", ⟨"a", (1 : ℕ), 0, 0⟩), ("b", ⟨"b", (2 : ℕ), 8000, 0⟩)],
          stats := Stats.fresh } 1 10000).2.cache = [("a", ⟨"a", (1 : ℕ), 0, 0⟩)] := by
  have h := cleanup_exact
    { patterns := [], cache := [("a", ⟨"a", (1 : ℕ), 0, 0⟩)],
      diskCache := [("a", ⟨"a", (1 : ℕ), 0, 0⟩), ("b", ⟨"b", (2 : ℕ), 8000, 0⟩)],
      stats := Stats.fresh } 1 10000
  refine ⟨?_, ?_, h.2.2.2.2.1⟩
  · intro hmem
    have := (h.1 ("a", ⟨"a", (1 : ℕ), 0, 0⟩) (List.mem_cons_self _ _)).mp hmem
    apply this
    norm_num
  · exact (h.1 ("b", ⟨"b", (2 : ℕ), 8000, 0⟩)
      (List.mem_cons_of_mem _ (List.mem_cons_self _ _))).mpr (by norm_num)

end DeepResearch
